import Mathlib

/-!
Shallow embedding of the data-reconciliation and financial-derivation
pipeline of the `generador_informes_obras_finalizadas` repository
(`src/processors/formatters.py`, `src/processors/calculations.py`,
`src/pdf/generator.py`, `scripts/run.py`), together with proofs settling
the frozen claims about it.

Numbers are modelled exactly as rationals (`ℚ`); Python `float` values in
scope are finite decimals, for which exact rational arithmetic agrees with
the displayed output at every granularity the claims inspect.  Because the
library's `Rat.add/mul/sub` are `@[irreducible]`, the embedding performs
its arithmetic through `mkRat`-based wrappers (`qAdd`, `qSub`, `qMul`,
`qMax`, `qMin`) that the kernel can evaluate; each wrapper is proved equal
to the corresponding standard operation, so theorems are stated with the
standard operations.
-/

/-- Cell values as they arrive from pandas rows: a string, a finite float
(modelled as an exact rational), Python `None`, or the float `NaN`
(pandas' missing-data marker, for which `pd.isna` is true). -/
inductive Val where
  | str : String → Val
  | num : ℚ → Val
  | none : Val
  | nan : Val
deriving DecidableEq, Repr

/-- Models `DataFormatters._esta_vacio` / `CalculosFinancieros._esta_vacio`
(formatters.py lines 189-192, calculations.py lines 174-177):
`value in ["--", "", None] or pd.isna(value)`. -/
def estaVacio : Val → Bool
  | .str s => s = "--" || s = ""
  | .num _ => false
  | .none => true
  | .nan => true

/-- Exact rational addition via `mkRat`, kernel-evaluable. -/
def qAdd (a b : ℚ) : ℚ := mkRat (a.num * b.den + b.num * a.den) (a.den * b.den)

/-- Exact rational subtraction via `mkRat`, kernel-evaluable. -/
def qSub (a b : ℚ) : ℚ := mkRat (a.num * b.den - b.num * a.den) (a.den * b.den)

/-- Exact rational multiplication via `mkRat`, kernel-evaluable. -/
def qMul (a b : ℚ) : ℚ := mkRat (a.num * b.num) (a.den * b.den)

/-- Python `max(a, b)` on numbers (returns `b` when `a < b`, else `a`). -/
def qMax (a b : ℚ) : ℚ := if a < b then b else a

/-- Python `min(a, b)` on numbers (returns `b` when `b < a`, else `a`). -/
def qMin (a b : ℚ) : ℚ := if b < a then b else a

theorem qAdd_eq (a b : ℚ) : qAdd a b = a + b := by
  have ha : (a.den : ℚ) ≠ 0 := Nat.cast_ne_zero.mpr a.den_pos.ne'
  have hb : (b.den : ℚ) ≠ 0 := Nat.cast_ne_zero.mpr b.den_pos.ne'
  rw [qAdd, Rat.mkRat_eq_div]
  conv_rhs => rw [← Rat.num_div_den a, ← Rat.num_div_den b]
  push_cast
  field_simp

theorem qSub_eq (a b : ℚ) : qSub a b = a - b := by
  have ha : (a.den : ℚ) ≠ 0 := Nat.cast_ne_zero.mpr a.den_pos.ne'
  have hb : (b.den : ℚ) ≠ 0 := Nat.cast_ne_zero.mpr b.den_pos.ne'
  rw [qSub, Rat.mkRat_eq_div]
  conv_rhs => rw [← Rat.num_div_den a, ← Rat.num_div_den b]
  push_cast
  field_simp
  ring

theorem qMul_eq (a b : ℚ) : qMul a b = a * b := by
  have ha : (a.den : ℚ) ≠ 0 := Nat.cast_ne_zero.mpr a.den_pos.ne'
  have hb : (b.den : ℚ) ≠ 0 := Nat.cast_ne_zero.mpr b.den_pos.ne'
  rw [qMul, Rat.mkRat_eq_div]
  conv_rhs => rw [← Rat.num_div_den a, ← Rat.num_div_den b]
  push_cast
  field_simp

theorem qMax_eq (a b : ℚ) : qMax a b = max a b := by
  unfold qMax
  split
  · exact (max_eq_right (le_of_lt (by assumption))).symm
  · exact (max_eq_left (le_of_not_lt (by assumption))).symm

theorem qMin_eq (a b : ℚ) : qMin a b = min a b := by
  unfold qMin
  split
  · exact (min_eq_right (le_of_lt (by assumption))).symm
  · exact (min_eq_left (le_of_not_lt (by assumption))).symm

/-- Floor of a rational, computed from its reduced fraction with Euclidean
integer division (kernel-evaluable, unlike `Int.floor` on `ℚ` here). -/
def qfloor (q : ℚ) : ℤ := q.num / (q.den : ℤ)

theorem qfloor_le (q : ℚ) : (qfloor q : ℚ) ≤ q := by
  have hd : (0 : ℤ) < (q.den : ℤ) := Int.ofNat_pos.mpr q.den_pos
  have hqd : (0 : ℚ) < (q.den : ℚ) := by positivity
  have hmod : 0 ≤ q.num % (q.den : ℤ) := Int.emod_nonneg q.num hd.ne'
  have h1 : (q.den : ℤ) * qfloor q + q.num % (q.den : ℤ) = q.num := by
    unfold qfloor
    exact Int.ediv_add_emod _ _
  have hint : qfloor q * (q.den : ℤ) ≤ q.num := by linarith
  have key : (qfloor q : ℚ) ≤ (q.num : ℚ) / (q.den : ℚ) := by
    rw [le_div_iff₀ hqd]
    exact_mod_cast hint
  simpa [Rat.num_div_den] using key

theorem lt_qfloor_add_one (q : ℚ) : q < (qfloor q : ℚ) + 1 := by
  have hd : (0 : ℤ) < (q.den : ℤ) := Int.ofNat_pos.mpr q.den_pos
  have hqd : (0 : ℚ) < (q.den : ℚ) := by positivity
  have hmod : q.num % (q.den : ℤ) < (q.den : ℤ) := Int.emod_lt_of_pos q.num hd
  have h1 : (q.den : ℤ) * qfloor q + q.num % (q.den : ℤ) = q.num := by
    unfold qfloor
    exact Int.ediv_add_emod _ _
  have hint : q.num < (qfloor q + 1) * (q.den : ℤ) := by ring_nf; linarith
  have key : (q.num : ℚ) / (q.den : ℚ) < (qfloor q : ℚ) + 1 := by
    rw [div_lt_iff₀ hqd]
    exact_mod_cast hint
  simpa [Rat.num_div_den] using key


/-- Round-half-even at integer precision: the rounding CPython's string
formatting (`format(v, ',.0f')` and friends) applies to the value being
rendered.  Finite decimals in scope are exact in `ℚ`, so this models the
observable output of the f-strings in `formatters.py`. -/
def roundHalfEvenQ (q : ℚ) : ℤ :=
  if qSub q (mkRat (qfloor q) 1) < mkRat 1 2 then qfloor q
  else if mkRat 1 2 < qSub q (mkRat (qfloor q) 1) then qfloor q + 1
  else if qfloor q % 2 = 0 then qfloor q else qfloor q + 1

theorem mkRat_one (n : ℤ) : mkRat n 1 = (n : ℚ) := by
  rw [Rat.mkRat_eq_div]
  simp

theorem mkRat_half : (mkRat 1 2 : ℚ) = 1 / 2 := by
  rw [Rat.mkRat_eq_div]
  norm_num

theorem roundHalfEvenQ_dist (q : ℚ) : |((roundHalfEvenQ q : ℤ) : ℚ) - q| ≤ 1 / 2 := by
  have hfl := qfloor_le q
  have hfu := lt_qfloor_add_one q
  unfold roundHalfEvenQ
  simp only [qSub_eq, mkRat_one, mkRat_half]
  split
  · rename_i hr
    rw [abs_le]
    constructor <;> linarith
  · rename_i hr1
    push_neg at hr1
    split
    · rename_i hr2
      rw [abs_le]
      push_cast
      constructor <;> linarith
    · rename_i hr2
      push_neg at hr2
      split <;> (rw [abs_le]; push_cast; constructor <;> linarith)

theorem roundHalfEvenQ_intCast (n : ℤ) : roundHalfEvenQ (n : ℚ) = n := by
  have hf : qfloor (n : ℚ) = n := by
    unfold qfloor
    simp
  unfold roundHalfEvenQ
  rw [hf]
  simp only [qSub_eq, mkRat_one, sub_self, mkRat_half]
  norm_num

theorem roundHalfEvenQ_nonneg {q : ℚ} (h : 0 ≤ q) : 0 ≤ roundHalfEvenQ q := by
  have hfu := lt_qfloor_add_one q
  have h0 : 0 ≤ qfloor q := by
    have h1 : (0 : ℚ) < (qfloor q : ℚ) + 1 := lt_of_le_of_lt h hfu
    have h2 : (0 : ℤ) < qfloor q + 1 := by exact_mod_cast h1
    omega
  unfold roundHalfEvenQ
  split
  · exact h0
  · split
    · omega
    · split <;> omega

theorem roundHalfEvenQ_nonpos {q : ℚ} (h : q < 0) : roundHalfEvenQ q ≤ 0 := by
  have hfl := qfloor_le q
  have h0 : qfloor q ≤ -1 := by
    have h1 : (qfloor q : ℚ) < 0 := lt_of_le_of_lt hfl h
    have h2 : qfloor q < 0 := by exact_mod_cast h1
    omega
  unfold roundHalfEvenQ
  split
  · omega
  · split
    · omega
    · split <;> omega

/-- ASCII digit character for a digit value 0-9. -/
def digitChar : Nat → Char
  | 0 => '0'
  | 1 => '1'
  | 2 => '2'
  | 3 => '3'
  | 4 => '4'
  | 5 => '5'
  | 6 => '6'
  | 7 => '7'
  | 8 => '8'
  | _ => '9'

/-- Numeric value of an ASCII digit character. -/
def charVal (c : Char) : Nat := c.toNat - 48

/-- Value of a most-significant-first digit-character string. -/
def charsVal (l : List Char) : Nat := l.foldl (fun a c => a * 10 + charVal c) 0

/-- Little-endian base-10 digits of `n`, with explicit fuel so the kernel
can evaluate it (`fuel ≥ n` suffices). -/
def natDigitsLE : Nat → Nat → List Nat
  | 0, _ => []
  | fuel + 1, n => if n = 0 then [] else n % 10 :: natDigitsLE fuel (n / 10)

/-- Value of a little-endian digit list. -/
def valLE : List Nat → Nat
  | [] => 0
  | d :: ds => d + 10 * valLE ds

/-- Most-significant-first digit characters of `n`, as Python renders a
nonnegative integer (`"0"` for zero). -/
def digitsMSB (n : Nat) : List Char :=
  if n = 0 then ['0'] else ((natDigitsLE n n).map digitChar).reverse

theorem valLE_natDigitsLE : ∀ fuel n, n ≤ fuel → valLE (natDigitsLE fuel n) = n := by
  intro fuel
  induction fuel with
  | zero =>
    intro n hn
    interval_cases n
    rfl
  | succ f ih =>
    intro n hn
    by_cases h0 : n = 0
    · subst h0
      simp [natDigitsLE, valLE]
    · have hdiv : n / 10 ≤ f := by
        have : n / 10 < n := Nat.div_lt_self (Nat.pos_of_ne_zero h0) (by omega)
        omega
      simp only [natDigitsLE, if_neg h0, valLE, ih _ hdiv]
      omega

theorem natDigitsLE_lt_ten : ∀ fuel n d, d ∈ natDigitsLE fuel n → d < 10 := by
  intro fuel
  induction fuel with
  | zero =>
    intro n d hd
    simp [natDigitsLE] at hd
  | succ f ih =>
    intro n d hd
    by_cases h0 : n = 0
    · subst h0
      simp [natDigitsLE] at hd
    · simp only [natDigitsLE, if_neg h0, List.mem_cons] at hd
      rcases hd with h | h
      · omega
      · exact ih _ _ h

theorem charVal_digitChar {d : Nat} (hd : d < 10) : charVal (digitChar d) = d := by
  interval_cases d <;> rfl

theorem isDigit_digitChar {d : Nat} (hd : d < 10) : (digitChar d).isDigit = true := by
  interval_cases d <;> rfl

theorem digitsMSB_ne_nil (n : Nat) : digitsMSB n ≠ [] := by
  unfold digitsMSB
  by_cases h0 : n = 0
  · simp [h0]
  · rw [if_neg h0]
    intro hcon
    have hne : natDigitsLE n n ≠ [] := by
      cases n with
      | zero => exact absurd rfl h0
      | succ m =>
        simp only [natDigitsLE]
        rw [if_neg h0]
        exact List.cons_ne_nil _ _
    rw [List.reverse_eq_nil_iff, List.map_eq_nil_iff] at hcon
    exact hne hcon

theorem digitsMSB_all_digits (n : Nat) : ∀ c ∈ digitsMSB n, c.isDigit = true := by
  intro c hc
  unfold digitsMSB at hc
  by_cases h0 : n = 0
  · rw [if_pos h0] at hc
    simp at hc
    subst hc
    rfl
  · rw [if_neg h0, List.mem_reverse, List.mem_map] at hc
    obtain ⟨d, hd, rfl⟩ := hc
    exact isDigit_digitChar (natDigitsLE_lt_ten n n d hd)

theorem charsVal_revLE (ds : List Nat) :
    ∀ a : Nat, (∀ d ∈ ds, d < 10) →
      ((ds.reverse.map digitChar).foldl (fun x c => x * 10 + charVal c) a)
        = a * 10 ^ ds.length + valLE ds := by
  induction ds with
  | nil =>
    intro a _
    simp [valLE]
  | cons d t ih =>
    intro a hlt
    have hd : d < 10 := hlt d (List.mem_cons_self d t)
    have ht : ∀ x ∈ t, x < 10 := fun x hx => hlt x (List.mem_cons_of_mem d hx)
    simp only [List.reverse_cons, List.map_append, List.map_cons, List.map_nil,
      List.foldl_append, List.foldl_cons, List.foldl_nil]
    rw [ih a ht, charVal_digitChar hd]
    simp only [valLE, List.length_cons]
    ring

theorem charsVal_digitsMSB (n : Nat) : charsVal (digitsMSB n) = n := by
  unfold digitsMSB charsVal
  by_cases h0 : n = 0
  · simp [h0, charVal]
  · rw [if_neg h0]
    have hmap : ((natDigitsLE n n).map digitChar).reverse
        = (natDigitsLE n n).reverse.map digitChar := (List.map_reverse _ _).symm
    rw [hmap, charsVal_revLE (natDigitsLE n n) 0 (natDigitsLE_lt_ten n n),
      valLE_natDigitsLE n n le_rfl]
    simp

/-- Insert `sep` after every third character, working on an already
reversed list (so groups count from the right of the original).  Explicit
fuel keeps the recursion structural. -/
def group3Aux (sep : Char) : Nat → List Char → List Char
  | 0, l => l
  | fuel + 1, l => if l.length ≤ 3 then l else l.take 3 ++ sep :: group3Aux sep fuel (l.drop 3)

/-- Thousands grouping from the right with separator `sep`, as CPython's
`,` format modifier renders the integer part. -/
def group3 (sep : Char) (l : List Char) : List Char :=
  (group3Aux sep l.length l.reverse).reverse

theorem group3Aux_filter (sep : Char) :
    ∀ fuel l, sep ∉ l → (group3Aux sep fuel l).filter (fun c => c ≠ sep) = l := by
  intro fuel
  induction fuel with
  | zero =>
    intro l hsep
    simp only [group3Aux]
    exact List.filter_eq_self.mpr (fun c hc => by
      simp only [ne_eq, decide_eq_true_eq]
      exact fun h => hsep (h ▸ hc))
  | succ f ih =>
    intro l hsep
    simp only [group3Aux]
    split
    · exact List.filter_eq_self.mpr (fun c hc => by
        simp only [ne_eq, decide_eq_true_eq]
        exact fun h => hsep (h ▸ hc))
    · rw [List.filter_append]
      have htake : (l.take 3).filter (fun c => c ≠ sep) = l.take 3 :=
        List.filter_eq_self.mpr (fun c hc => by
          simp only [ne_eq, decide_eq_true_eq]
          exact fun h => hsep (h ▸ List.mem_of_mem_take hc))
      have hdrop : sep ∉ l.drop 3 := fun h => hsep (List.mem_of_mem_drop h)
      rw [htake]
      simp only [List.filter_cons]
      have : (decide (sep ≠ sep)) = false := by simp
      rw [this, ih _ hdrop]
      exact (List.take_append_drop 3 l)

theorem group3Aux_map (sep : Char) (g : Char → Char) :
    ∀ fuel l, (group3Aux sep fuel l).map g = group3Aux (g sep) fuel (l.map g) := by
  intro fuel
  induction fuel with
  | zero =>
    intro l
    simp [group3Aux]
  | succ f ih =>
    intro l
    simp only [group3Aux, List.length_map]
    split
    · rfl
    · simp only [List.map_append, List.map_cons, List.map_take, List.map_drop, ih]

theorem group3_filter (sep : Char) (l : List Char) (hsep : sep ∉ l) :
    (group3 sep l).filter (fun c => c ≠ sep) = l := by
  unfold group3
  rw [List.filter_reverse, group3Aux_filter sep _ _ (by simpa using hsep), List.reverse_reverse]

theorem group3_map (sep : Char) (g : Char → Char) (l : List Char) :
    (group3 sep l).map g = group3 (g sep) (l.map g) := by
  unfold group3
  rw [List.map_reverse, group3Aux_map, List.map_reverse, List.length_map]

/-- First pass of the argentinian separator swap: `replace(',', 'X')`. -/
def swapA (c : Char) : Char := if c = ',' then 'X' else c

/-- Second pass: `replace('.', ',')`. -/
def swapB (c : Char) : Char := if c = '.' then ',' else c

/-- Third pass: `replace('X', '.')`. -/
def swapC (c : Char) : Char := if c = 'X' then '.' else c

/-- The `replace(',', 'X').replace('.', ',').replace('X', '.')` chain used
by `formatear_moneda`, `formatear_moneda_sin_decimales` and
`formatear_numero` to turn `1,234,567.89` into `1.234.567,89`.  Single
character replacements on strings are character maps. -/
def pyTransform (l : List Char) : List Char := ((l.map swapA).map swapB).map swapC

/-- Body of CPython's `float(str)` grammar as exercised by this pipeline:
digits with an optional decimal point (at least one digit overall).
Exponents, underscores, infinities and surrounding whitespace never occur
in the cleaned inputs the code parses, so they are not modelled; on them
this model is merely more conservative (returns `none`). -/
def pyParseBody (l : List Char) : Option ℚ :=
  match l.dropWhile Char.isDigit with
  | [] => if (l.takeWhile Char.isDigit).isEmpty then none
          else some ((charsVal (l.takeWhile Char.isDigit) : ℕ) : ℚ)
  | '.' :: fr =>
      if fr.all Char.isDigit && !((l.takeWhile Char.isDigit).isEmpty && fr.isEmpty) then
        some (mkRat ((charsVal (l.takeWhile Char.isDigit)) * 10 ^ fr.length
          + charsVal fr) (10 ^ fr.length))
      else none
  | _ => none

/-- CPython `float(s)` on the strings this pipeline feeds it: optional
sign followed by `pyParseBody`.  `none` models the `ValueError` raised on
anything else. -/
def pythonFloat (s : String) : Option ℚ :=
  match s.data with
  | [] => none
  | c :: rest =>
      if c = '-' then Option.map (fun q : ℚ => -q) (pyParseBody rest)
      else if c = '+' then pyParseBody rest
      else pyParseBody (c :: rest)

/-- Models `value.replace('.', '')`: the thousands-separator strip performed on
textual input before parsing. -/
def stripDots (l : List Char) : List Char := l.filter (fun c => c ≠ '.')

/-- Models `value.replace(',', '.')`: the decimal-comma conversion performed on
textual input before parsing. -/
def commasToDots (l : List Char) : List Char := l.map (fun c => if c = ',' then '.' else c)

/-- The textual cleaning `value.replace('.', '').replace(',', '.')`
shared by `_numero_limpio` (calculations.py lines 157-172) and the
formatters' string branches. -/
def cleanSeps (s : String) : String := String.mk (commasToDots (stripDots s.data))

/-- Python whitespace for `str.strip()` as it occurs in spreadsheet
cells. -/
def isPySpace (c : Char) : Bool := c = ' ' || c = '\t' || c = '\n' || c = '\r'

/-- Python `str.strip()`: drop leading and trailing whitespace.  (Defined
on the character list so the kernel can evaluate it.) -/
def pyStrip (s : String) : String :=
  String.mk (((s.data.dropWhile isPySpace).reverse.dropWhile isPySpace).reverse)


/-- Models `CalculosFinancieros._numero_limpio` (calculations.py lines 157-172):
clean argentinian separators on strings, then `float(value)`.  `none`
models a raised `ValueError`/`TypeError`.  (`float(NaN)` is `NaN`; every
caller guards with `_esta_vacio`, so the `nan` branch is unreachable and
is conservatively mapped to `none`.) -/
def numeroLimpio : Val → Option ℚ
  | .str s => pythonFloat (cleanSeps s)
  | .num q => some q
  | .none => none
  | .nan => none

/-- Sign-and-grouped-digits rendering of `format(v, ',.0f')`: CPython
rounds the value half-even to an integer and keeps the sign of the value
(so `-0.2` renders as `-0`). -/
def usIntChars (q : ℚ) : List Char :=
  (if q < 0 then ['-'] else []) ++ group3 ',' (digitsMSB (roundHalfEvenQ q).natAbs)

/-- Two-digit zero-padded rendering of a value 0-99. -/
def twoDigits (m : Nat) : List Char := [digitChar (m / 10), digitChar (m % 10)]

/-- Models `f"{float_value:,.0f}"` then the separator swap: the body of
`DataFormatters.formatear_numero` on a successfully parsed number. -/
def numFmtChars (q : ℚ) : List Char := pyTransform (usIntChars q)

/-- Models `f"$ {float_value:,.0f}"` then the separator swap: the body of
`DataFormatters.formatear_moneda_sin_decimales` on a parsed number. -/
def monedaSinDecChars (q : ℚ) : List Char := pyTransform ('$' :: ' ' :: usIntChars q)

/-- Models `f"$ {float_value:,.2f}"` then the separator swap: the body of
`DataFormatters.formatear_moneda` on a parsed number (two decimals,
rounded half-even at the second decimal). -/
def moneda2Chars (q : ℚ) : List Char :=
  pyTransform ('$' :: ' ' :: (if q < 0 then ['-'] else [])
    ++ group3 ',' (digitsMSB ((roundHalfEvenQ (qMul q 100)).natAbs / 100))
    ++ '.' :: twoDigits ((roundHalfEvenQ (qMul q 100)).natAbs % 100))

/-- Models `formatted[:-3]`, as used to drop a trailing `,00`. -/
def dropLast3 (l : List Char) : List Char := (l.reverse.drop 3).reverse

/-- Models `formatted.endswith(",00")`. -/
def endsWithComma00 (l : List Char) : Bool := l.reverse.take 3 = ['0', '0', ',']

/-- Models `f"{float_value:.2f}".replace('.', ',')` with the trailing `",00"`
elided, plus the `%` suffix: the body of
`DataFormatters.formatear_porcentaje` on a parsed number.  The `:.2f`
format applies no thousands grouping. -/
def pctChars (q : ℚ) : List Char :=
  ((fun base => if endsWithComma00 base then dropLast3 base else base)
    (((if q < 0 then ['-'] else [])
      ++ digitsMSB ((roundHalfEvenQ (qMul q 100)).natAbs / 100)
      ++ '.' :: twoDigits ((roundHalfEvenQ (qMul q 100)).natAbs % 100)).map swapB)) ++ ['%']

/-- Models `DataFormatters.formatear_numero` (formatters.py lines 117-137).
On a textual input the code rebinds `value` to the cleaned string before
`float(value)`, so the `except` fallback `str(value)` returns the
*cleaned* string.  The `.none`/`.nan` branches are unreachable behind the
`_esta_vacio` guard and carry their honest Python values. -/
def formatearNumero (value : Val) : String :=
  if estaVacio value then "--"
  else
    match value with
    | .str s =>
        match pythonFloat (cleanSeps s) with
        | some q => String.mk (numFmtChars q)
        | Option.none => cleanSeps s
    | .num q => String.mk (numFmtChars q)
    | .none => "None"
    | .nan => "nan"

/-- Models `DataFormatters.formatear_moneda_sin_decimales` (formatters.py lines
39-59); same structure as `formatear_numero` with a `$ ` prefix. -/
def formatearMonedaSinDecimales (value : Val) : String :=
  if estaVacio value then "--"
  else
    match value with
    | .str s =>
        match pythonFloat (cleanSeps s) with
        | some q => String.mk (monedaSinDecChars q)
        | Option.none => cleanSeps s
    | .num q => String.mk (monedaSinDecChars q)
    | .none => "None"
    | .nan => "$ nan"

/-- Models `DataFormatters.formatear_moneda` (formatters.py lines 17-37);
two-decimal currency variant. -/
def formatearMoneda (value : Val) : String :=
  if estaVacio value then "--"
  else
    match value with
    | .str s =>
        match pythonFloat (cleanSeps s) with
        | some q => String.mk (moneda2Chars q)
        | Option.none => cleanSeps s
    | .num q => String.mk (moneda2Chars q)
    | .none => "None"
    | .nan => "$ nan"

/-- The cleaning `value.strip().replace('%', '').replace(',', '.')` of
`formatear_porcentaje`'s string branch (note: dots are NOT stripped
here, unlike the other formatters). -/
def cleanPct (s : String) : String :=
  String.mk (((pyStrip s).data.filter (fun c => c ≠ '%')).map
    (fun c => if c = ',' then '.' else c))

/-- Models `DataFormatters.formatear_porcentaje` (formatters.py lines 61-85). -/
def formatearPorcentaje (value : Val) : String :=
  if estaVacio value then "--"
  else
    match value with
    | .str s =>
        match pythonFloat (cleanPct s) with
        | some q => String.mk (pctChars q)
        | Option.none => cleanPct s
    | .num q => String.mk (pctChars q)
    | .none => "None"
    | .nan => "nan%"

/-- Python exceptions that escape the modelled functions. -/
inductive PyErr where
  | nameError : PyErr
  | indexError : PyErr
deriving DecidableEq, Repr

/-- Models `CalculosFinancieros.calcular_uvi_restantes` (calculations.py lines
17-49): guard on `_esta_vacio`, clean both operands, `max(0, total-paid)`,
render with `formatear_numero`; any exception inside the `try` (only
`float` can raise here) is caught and becomes `"--"`. -/
def calcularUviRestantes (totalUvi paidUvi : Val) : Except PyErr String :=
  if estaVacio totalUvi || estaVacio paidUvi then .ok "--"
  else
    match numeroLimpio totalUvi, numeroLimpio paidUvi with
    | some t, some p => .ok (formatearNumero (.num (qMax 0 (qSub t p))))
    | _, _ => .ok "--"

/-- Models `CalculosFinancieros.calcular_monto_restante` (calculations.py lines
51-84): like the UVI variant but rendered with
`formatear_moneda_sin_decimales`. -/
def calcularMontoRestante (updatedMonto paidMonto : Val) : Except PyErr String :=
  if estaVacio updatedMonto || estaVacio paidMonto then .ok "--"
  else
    match numeroLimpio updatedMonto, numeroLimpio paidMonto with
    | some u, some p => .ok (formatearMonedaSinDecimales (.num (qMax 0 (qSub u p))))
    | _, _ => .ok "--"

/-- Models `CalculosFinancieros.calculate_progreso_restante` (calculations.py
lines 86-120): rescale a cleaned value in `[0, 1]` by 100, take
`100 - value`, clamp to `[0, 100]`, render as percentage. -/
def calculateProgresoRestante (currentProgreso : Val) : Except PyErr String :=
  if estaVacio currentProgreso then .ok "--"
  else
    match numeroLimpio currentProgreso with
    | some p =>
        .ok (formatearPorcentaje (.num
          (qMax 0 (qMin 100 (qSub 100 (if 0 ≤ p ∧ p ≤ 1 then qMul p 100 else p))))))
    | Option.none => .ok "--"

/-- Models `CalculosFinancieros.calculo_viviendas_restantes` (calculations.py
lines 122-155).  Same shape as the UVI variant — but its `except` handler
logs an f-string naming the undefined variable `delivered_viviendas`
(line 154), so when the `try` body raises (e.g. `float` on an
unparseable operand) the handler itself raises `NameError` instead of
returning `"--"`. -/
def calculoViviendasRestantes (totalViviendas vivEntregadas : Val) : Except PyErr String :=
  if estaVacio totalViviendas || estaVacio vivEntregadas then .ok "--"
  else
    match numeroLimpio totalViviendas, numeroLimpio vivEntregadas with
    | some t, some d => .ok (formatearNumero (.num (qMax 0 (qSub t d))))
    | _, _ => .error .nameError

/-- The rate conversion `float(valor_uvi_actual) if isinstance(...) else 0`
in the saldo derivations (calculations.py lines 207 and 274): a plain
`float` call with NO argentinian-separator cleaning.  `none` models the
`ValueError` on an unparseable string (caught by the enclosing handler);
`.none` would take the `else 0` branch but is filtered earlier;
`float(NaN)` is `NaN`, filtered earlier by `_esta_vacio`. -/
def pyFloatValor : Val → Option ℚ
  | .num q => some q
  | .str s => pythonFloat s
  | .none => some 0
  | .nan => Option.none

/-- Models `CalculosUVI.calcular_saldo_actualizado` (calculations.py lines
183-222): guard, clean the quantity with `_numero_limpio`, convert the
rate with plain `float`, require the rate positive, multiply, render as
integer currency; any exception becomes `"--"` (handler is sound here). -/
def calcularSaldoActualizado (cantidadUvis valorUviActual : Val) : Except PyErr String :=
  if estaVacio cantidadUvis || valorUviActual = Val.none || estaVacio valorUviActual then
    .ok "--"
  else
    match numeroLimpio cantidadUvis with
    | Option.none => .ok "--"
    | some c =>
        match pyFloatValor valorUviActual with
        | Option.none => .ok "--"
        | some v => if v ≤ 0 then .ok "--"
                    else .ok (formatearMonedaSinDecimales (.num (qMul c v)))

/-- Models `CalculosSaldoObra.calcular_saldo_obra_actualizado` (calculations.py
lines 249-289): line-for-line the same computation as
`calcular_saldo_actualizado`. -/
def calcularSaldoObraActualizado (totalUvi valorUviActual : Val) : Except PyErr String :=
  if estaVacio totalUvi || valorUviActual = Val.none || estaVacio valorUviActual then
    .ok "--"
  else
    match numeroLimpio totalUvi with
    | Option.none => .ok "--"
    | some c =>
        match pyFloatValor valorUviActual with
        | Option.none => .ok "--"
        | some v => if v ≤ 0 then .ok "--"
                    else .ok (formatearMonedaSinDecimales (.num (qMul c v)))

/-- The rate cleaning of `CalculosSaldoObra.obtener_valor_uvi_diario`
(calculations.py lines 304-307): the feed string fetched from the BCRA
collaborator is cleaned with `replace('.', '').replace(',', '.')` and
passed to `float`.  The fetch itself is an external collaborator; only
its conversion step lives in this file. -/
def limpiarValorUviDiario (s : String) : Option ℚ := pythonFloat (cleanSeps s)

/-- Models `str()` of a Python float.  Integral floats print as `d.0` exactly as
CPython does; for non-integral finite decimals CPython prints the
shortest round-trip decimal, modelled by an exact 17-digit expansion with
trailing zeros stripped (identical on the spreadsheet values in scope; no
claim inspects this rendering). -/
def pyFloatRepr (q : ℚ) : String :=
  if q.den = 1 then
    String.mk ((if q.num < 0 then ['-'] else []) ++ digitsMSB q.num.natAbs ++ ['.', '0'])
  else
    String.mk ((if q.num < 0 then ['-'] else [])
      ++ digitsMSB (q.num.natAbs * 10 ^ 17 / q.den / 10 ^ 17)
      ++ '.' ::
      (fun fr =>
        (fun stripped => if stripped.isEmpty then ['0'] else stripped)
          ((((List.replicate (17 - (digitsMSB fr).length) '0' ++ digitsMSB fr).reverse.dropWhile
            (fun c => c = '0')).reverse)))
        (q.num.natAbs * 10 ^ 17 / q.den % 10 ^ 17))

/-- Python `str(value)` on a cell value. -/
def pyStr : Val → String
  | .str s => s
  | .num q => pyFloatRepr q
  | .none => "None"
  | .nan => "nan"

/-- The two external date facilities used by the indexer and the
formatters, kept abstract: `toDatetimeOk v` tells whether
`pd.to_datetime(v, errors='coerce')` yields a real timestamp, and
`fmtFecha v` is the result of `formatear_fecha`'s parse cascade
(formatters.py lines 164-187) on a non-empty value.  Every theorem is
universally quantified over this oracle: nothing a claim asserts depends
on how dates parse. -/
structure DateOracle where
  toDatetimeOk : Val → Bool
  fmtFecha : Val → String

/-- Models `DataFormatters.formatear_fecha` (formatters.py lines 158-187): the
`_esta_vacio` guard is the code's own first line; the rest of the cascade
is delegated to the external pandas parser. -/
def formatearFecha (o : DateOracle) (fecha : Val) : String :=
  if estaVacio fecha then "--" else o.fmtFecha fecha

/-- One row of the payments sheet after the indexer's column resolution
(generator.py lines 82-113: normalize names, pick the first matching
candidate per semantic field; a missing column yields `Val.none` for that
field on every row). -/
structure PagoRow where
  idObra : Val
  trata : Val
  certificadoDga : Val
  expediente : Val
  importeDevengado : Val
  fechaPago : Val
deriving DecidableEq, Repr

/-- The `_clean_value` helper inside `_build_pagos_index` (generator.py
lines 120-127): `None` on NaN/None, `str(val)` for numbers, and
`str(val).strip() if val else None` for strings (an empty string is
falsy, so it becomes `None`). -/
def cleanValue : Val → Option String
  | .nan => Option.none
  | .none => Option.none
  | .num q => some (pyFloatRepr q)
  | .str s => if s = "" then Option.none else some (pyStrip s)

/-- Lift the optional strings stored in the pago dict back to cell
values (`None` ↦ `Val.none`). -/
def optVal : Option String → Val
  | some s => .str s
  | Option.none => Val.none

/-- The per-row key extraction of `_build_pagos_index` (generator.py
lines 131-137): skip NaN keys, then `str(raw).strip()`, skipping empty
and `"--"` keys. -/
def mkKey (v : Val) : Option String :=
  match v with
  | .nan => Option.none
  | .none => Option.none
  | _ => if pyStrip (pyStr v) = "" || pyStrip (pyStr v) = "--" then Option.none
         else some (pyStrip (pyStr v))

/-- One normalized payment dict as `_build_pagos_index` appends it
(generator.py lines 139-177).  The private `"_sort_fecha"`/`"_sort_idx"`
entries hold a pandas timestamp and the row index; the index is carried
structurally in `sortIdx` (it is the only one the code reads back, as the
sort key on line 181), timestamps being outside `Val`. -/
structure Pago where
  fields : List (String × Val)
  sortIdx : Nat
deriving DecidableEq, Repr

/-- Build the payment dict for one resolved row (generator.py lines
139-176). -/
def mkPago (o : DateOracle) (idx : Nat) (r : PagoRow) : Pago where
  fields :=
    [("trata", optVal (cleanValue r.trata)),
     ("nro",
       if r.certificadoDga = Val.none || r.certificadoDga = Val.nan then Val.none
       else .str (formatearNumero r.certificadoDga)),
     ("expediente", optVal (cleanValue r.expediente)),
     ("devengado",
       if r.importeDevengado = Val.none || r.importeDevengado = Val.nan then Val.none
       else .str (formatearMonedaSinDecimales r.importeDevengado)),
     ("fecha_pago",
       if r.fechaPago = Val.none || r.fechaPago = Val.nan then Val.none
       else .str (formatearFecha o r.fechaPago)),
     ("estado_calculado",
       if o.toDatetimeOk r.fechaPago then .str "Pagado"
       else if r.importeDevengado = Val.none || r.importeDevengado = Val.nan then Val.none
       else .str "Devengado sin pagar")]
  sortIdx := idx

/-- Models `pagos_por_obra.setdefault(obra_id, []).append(pago)`: append to the
key's list, inserting the key at the end on first sight (dict insertion
order). -/
def appendAt (m : List (String × List Pago)) (k : String) (p : Pago) :
    List (String × List Pago) :=
  match m with
  | [] => [(k, [p])]
  | (k', ps) :: rest =>
      if k' = k then (k', ps ++ [p]) :: rest else (k', ps) :: appendAt rest k p

/-- The row loop of `_build_pagos_index` (generator.py lines 130-177),
with `i` the dataframe index of the next row (a fresh read yields the
range index 0,1,2,...). -/
def fillGo (o : DateOracle) : Nat → List PagoRow → List (String × List Pago) →
    List (String × List Pago)
  | _, [], m => m
  | i, r :: rs, m =>
      fillGo o (i + 1) rs
        (match mkKey r.idObra with
         | Option.none => m
         | some k => appendAt m k (mkPago o i r))

/-- Stable insertion keeping earlier elements first among equal keys —
Python `list.sort` is stable, and any stable comparison sort computes the
same list. -/
def insortByIdx (p : Pago) : List Pago → List Pago
  | [] => [p]
  | q :: qs => if p.sortIdx ≤ q.sortIdx then p :: q :: qs else q :: insortByIdx p qs

/-- Models `pagos_por_obra[obra_id].sort(key=lambda p: p["_sort_idx"])`
(generator.py line 181). -/
def sortByIdx (l : List Pago) : List Pago := l.foldr insortByIdx []

/-- Models `PDFGenerator._build_pagos_index` (generator.py lines 71-182) after
column resolution: group rows by cleaned key in encounter order, then
sort each list by the stored row index. -/
def buildPagosIndex (o : DateOracle) (rows : List PagoRow) : List (String × List Pago) :=
  (fillGo o 0 rows []).map (fun kv => (kv.1, sortByIdx kv.2))

/-- Reference list: the pagos of all rows keyed `k`, in source order,
with `i` the index of the first row. -/
def pagosOf (o : DateOracle) : Nat → List PagoRow → String → List Pago
  | _, [], _ => []
  | i, r :: rs, k =>
      (if mkKey r.idObra = some k then [mkPago o i r] else []) ++ pagosOf o (i + 1) rs k

/-- Models `PDFGenerator._to_display` (generator.py lines 184-189). -/
def toDisplay (v : Val) : String :=
  match v with
  | .none => "--"
  | .nan => "--"
  | _ => if pyStrip (pyStr v) = "" then "--" else pyStrip (pyStr v)

/-- The seven payment-dependent single-value context fields assembled at
generator.py lines 419-428. -/
structure PagoCtx where
  Nro : String
  Expediente : String
  NroOperatoria : String
  Contratista : String
  EstadoPago : String
  Devengado : String
  FechaPago : String
deriving DecidableEq, Repr

/-- Models `dict.get(key)` on a pago dict: `None` when the key is absent. -/
def dictGet (p : Pago) (k : String) : Val :=
  match p.fields.lookup k with
  | some v => v
  | Option.none => Val.none

/-- The payments section of `PDFGenerator._build_template_context`
(generator.py lines 415-428).  Each field is written
`expr if pagos[0] else "--"`: the conditional evaluates its test
`pagos[0]` FIRST, so an empty list raises `IndexError` before any
fallback can apply; on a nonempty list the test is the leading dict,
truthy exactly when that dict is nonempty. -/
def buildPagoFields (o : DateOracle) (pagos : List Pago) : Except PyErr PagoCtx :=
  match pagos with
  | [] => .error .indexError
  | p :: _ =>
      if p.fields.isEmpty then
        .ok ⟨"--", "--", "--", "--", "--", "--", "--"⟩
      else
        .ok ⟨toDisplay (dictGet p "certificado_dga"),
             toDisplay (dictGet p "expediente"),
             toDisplay (dictGet p "OP"),
             toDisplay (dictGet p "ente"),
             toDisplay (dictGet p "estado_pago"),
             formatearMoneda (dictGet p "importe_devengado"),
             formatearFecha o (dictGet p "fecha_pago")⟩

/-- A pandas DataFrame as the merge sees it: named columns over
positional rows. -/
structure Table where
  cols : List String
  rows : List (List Val)
deriving DecidableEq, Repr

/-- Cell lookup by column name (missing columns read as NaN). -/
def getCell (cols : List String) (row : List Val) (c : String) : Val :=
  match cols.findIdx? (fun x => x = c) with
  | some j => row.getD j Val.nan
  | Option.none => Val.nan

/-- pandas collision suffixing: every non-key column name shared by the
other side gets the source tag appended. -/
def suffixCols (own other : List String) (key sfx : String) : List String :=
  own.map (fun c => if c ≠ key && other.contains c then c ++ sfx else c)

/-- Models `df_excel.merge(df_sheets, on='id_obra', how='left',
suffixes=('_excel', '_sheets'))` as invoked at scripts/run.py lines
117-124.  pandas itself is an external library; this models its
documented left-outer-join contract: every left row survives in order,
matched right rows contribute their non-key cells, unmatched left rows
are NaN-filled on the right columns, and shared non-key column names are
suffixed by source.  (pandas never matches NaN join keys; the project
ids in scope are strings, so that corner is not modelled.) -/
def leftMerge (left right : Table) (key : String) : Table where
  cols := suffixCols left.cols right.cols key "_excel"
    ++ suffixCols (right.cols.filter (fun c => c ≠ key)) left.cols key "_sheets"
  rows := (left.rows.map (fun lr =>
    match right.rows.filter (fun rr =>
        getCell right.cols rr key == getCell left.cols lr key) with
    | [] => [lr ++ (right.cols.filter (fun c => c ≠ key)).map (fun _ => Val.nan)]
    | ms => ms.map (fun rr =>
        lr ++ ((right.cols.zip rr).filter (fun p => p.1 ≠ key)).map Prod.snd))).flatten

/-- Composite of the three replace passes. -/
def swapAll (c : Char) : Char := swapC (swapB (swapA c))

theorem pyTransform_eq_map (l : List Char) : pyTransform l = l.map swapAll := by
  unfold pyTransform swapAll
  rw [List.map_map, List.map_map]
  rfl

theorem isDigit_ne {c : Char} (h : c.isDigit = true) :
    c ≠ ',' ∧ c ≠ '.' ∧ c ≠ 'X' ∧ c ≠ '-' := by
  refine ⟨?_, ?_, ?_, ?_⟩ <;> (rintro rfl; exact absurd h (by decide))

theorem swapAll_digit {c : Char} (h : c.isDigit = true) : swapAll c = c := by
  obtain ⟨h1, h2, h3, _⟩ := isDigit_ne h
  simp [swapAll, swapA, swapB, swapC, h1, h2, h3]

theorem map_eq_self_of_forall {f : Char → Char} :
    ∀ l : List Char, (∀ c ∈ l, f c = c) → l.map f = l := by
  intro l h
  induction l with
  | nil => rfl
  | cons c t ih =>
    simp only [List.map_cons, h c (List.mem_cons_self c t)]
    rw [ih (fun x hx => h x (List.mem_cons_of_mem c hx))]

theorem takeWhile_all {p : Char → Bool} :
    ∀ l : List Char, (∀ c ∈ l, p c = true) → l.takeWhile p = l ∧ l.dropWhile p = [] := by
  intro l h
  induction l with
  | nil => exact ⟨rfl, rfl⟩
  | cons c t ih =>
    have hc := h c (List.mem_cons_self c t)
    have ht := ih (fun x hx => h x (List.mem_cons_of_mem c hx))
    constructor
    · simp [List.takeWhile_cons, hc, ht.1]
    · simp [List.dropWhile_cons, hc, ht.2]

theorem pyParseBody_digits (ds : List Char) (hne : ds ≠ [])
    (hd : ∀ c ∈ ds, c.isDigit = true) :
    pyParseBody ds = some ((charsVal ds : ℕ) : ℚ) := by
  obtain ⟨htake, hdrop⟩ := takeWhile_all ds hd
  unfold pyParseBody
  rw [hdrop, htake]
  have : ds.isEmpty = false := by
    cases ds with
    | nil => exact absurd rfl hne
    | cons c t => rfl
  simp [this]

theorem pythonFloat_digits (ds : List Char) (hne : ds ≠ [])
    (hd : ∀ c ∈ ds, c.isDigit = true) :
    pythonFloat (String.mk ds) = some ((charsVal ds : ℕ) : ℚ) := by
  cases ds with
  | nil => exact absurd rfl hne
  | cons c t =>
    have hc := hd c (List.mem_cons_self c t)
    obtain ⟨_, _, _, hminus⟩ := isDigit_ne hc
    have hplus : c ≠ '+' := by rintro rfl; exact absurd hc (by decide)
    show pythonFloat (String.mk (c :: t)) = _
    unfold pythonFloat
    simp only [if_neg hminus, if_neg hplus]
    exact pyParseBody_digits (c :: t) hne hd

theorem pythonFloat_neg_digits (ds : List Char) (hne : ds ≠ [])
    (hd : ∀ c ∈ ds, c.isDigit = true) :
    pythonFloat (String.mk ('-' :: ds)) = some (-((charsVal ds : ℕ) : ℚ)) := by
  unfold pythonFloat
  simp only [if_pos rfl]
  rw [pyParseBody_digits ds hne hd]
  rfl

theorem dot_not_mem_digits (n : Nat) : '.' ∉ digitsMSB n := by
  intro hmem
  exact absurd (digitsMSB_all_digits n '.' hmem) (by decide)

theorem numFmtChars_eq (q : ℚ) :
    numFmtChars q
      = (if q < 0 then ['-'] else []) ++ group3 '.' (digitsMSB (roundHalfEvenQ q).natAbs) := by
  unfold numFmtChars usIntChars
  rw [pyTransform_eq_map, List.map_append, group3_map]
  have h2 : (digitsMSB (roundHalfEvenQ q).natAbs).map swapAll
      = digitsMSB (roundHalfEvenQ q).natAbs :=
    map_eq_self_of_forall _ (fun c hc => swapAll_digit (digitsMSB_all_digits _ c hc))
  have h1 : swapAll ',' = '.' := rfl
  rw [h1, h2]
  by_cases hq : q < 0 <;> simp [hq, swapAll, swapA, swapB, swapC]

theorem cleanSeps_numFmt (q : ℚ) :
    cleanSeps (String.mk (numFmtChars q))
      = String.mk ((if q < 0 then ['-'] else []) ++ digitsMSB (roundHalfEvenQ q).natAbs) := by
  rw [numFmtChars_eq]
  show String.mk (commasToDots (stripDots _)) = _
  congr 1
  unfold stripDots commasToDots
  rw [List.filter_append, List.map_append]
  have hfilter : (group3 '.' (digitsMSB (roundHalfEvenQ q).natAbs)).filter (fun c => c ≠ '.')
      = digitsMSB (roundHalfEvenQ q).natAbs :=
    group3_filter '.' _ (dot_not_mem_digits _)
  rw [hfilter]
  have hds : (digitsMSB (roundHalfEvenQ q).natAbs).map (fun c => if c = ',' then '.' else c)
      = digitsMSB (roundHalfEvenQ q).natAbs :=
    map_eq_self_of_forall _ (fun c hc => by
      have := (isDigit_ne (digitsMSB_all_digits _ c hc)).1
      simp [this])
  rw [hds]
  by_cases hq : q < 0 <;> simp [hq]

theorem numeroLimpio_formatearNumero (q : ℚ) :
    numeroLimpio (.str (formatearNumero (.num q)))
      = some ((roundHalfEvenQ q : ℤ) : ℚ) := by
  have hfmt : formatearNumero (.num q) = String.mk (numFmtChars q) := rfl
  show pythonFloat (cleanSeps (formatearNumero (.num q))) = _
  rw [hfmt, cleanSeps_numFmt]
  have hdig := digitsMSB_all_digits (roundHalfEvenQ q).natAbs
  have hne := digitsMSB_ne_nil (roundHalfEvenQ q).natAbs
  by_cases hq : q < 0
  · rw [if_pos hq]
    show pythonFloat (String.mk ('-' :: digitsMSB (roundHalfEvenQ q).natAbs)) = _
    rw [pythonFloat_neg_digits _ hne hdig, charsVal_digitsMSB]
    have hnp : roundHalfEvenQ q ≤ 0 := roundHalfEvenQ_nonpos hq
    have habs : ((roundHalfEvenQ q).natAbs : ℤ) = -(roundHalfEvenQ q) := by omega
    congr 1
    rw [show (((roundHalfEvenQ q).natAbs : ℕ) : ℚ) = (((roundHalfEvenQ q).natAbs : ℤ) : ℚ)
      from (Int.cast_natCast _).symm]
    rw [habs]
    push_cast
    ring
  · rw [if_neg hq, List.nil_append]
    rw [pythonFloat_digits _ hne hdig, charsVal_digitsMSB]
    have hnn : 0 ≤ roundHalfEvenQ q := roundHalfEvenQ_nonneg (le_of_not_lt hq)
    have habs : ((roundHalfEvenQ q).natAbs : ℤ) = roundHalfEvenQ q := Int.natAbs_of_nonneg hnn
    congr 1
    rw [show (((roundHalfEvenQ q).natAbs : ℕ) : ℚ) = (((roundHalfEvenQ q).natAbs : ℤ) : ℚ)
      from (Int.cast_natCast _).symm]
    rw [habs]

/-- C4 (amended): for every input whose cleaned value is `q`, cleaning
the thousands-grouped output of the number formatter returns exactly the
half-even integer rounding of `q` — within 1/2 of `q`, and equal to `q`
whenever `q` is an integer.  (The claim's exact round-trip fails for
fractional inputs because `formatear_numero` renders zero decimals; see
the counterexample.) -/
theorem C4_format_clean_roundtrip (v : Val) (q : ℚ) (h : numeroLimpio v = some q) :
    numeroLimpio (.str (formatearNumero (.num q))) = some ((roundHalfEvenQ q : ℤ) : ℚ)
    ∧ |((roundHalfEvenQ q : ℤ) : ℚ) - q| ≤ 1 / 2
    ∧ (q.den = 1 → ((roundHalfEvenQ q : ℤ) : ℚ) = q) := by
  refine ⟨numeroLimpio_formatearNumero q, roundHalfEvenQ_dist q, fun hden => ?_⟩
  have hq : ((q.num : ℤ) : ℚ) = q := by
    conv_rhs => rw [← Rat.num_div_den q]
    rw [hden]
    simp
  rw [← hq, roundHalfEvenQ_intCast]

/-- C4, counterexample to the claim as stated: the locale input `"1,5"`
cleans to 3/2, formats to `"2"`, and cleans back to 2 ≠ 3/2. -/
theorem C4_roundtrip_counterexample :
    numeroLimpio (.str "1,5") = some (mkRat 3 2)
    ∧ formatearNumero (.num (mkRat 3 2)) = "2"
    ∧ numeroLimpio (.str (formatearNumero (.num (mkRat 3 2)))) = some 2
    ∧ (2 : ℚ) ≠ mkRat 3 2 := by
  refine ⟨by decide, by decide, by decide, by decide⟩

/-- C4, witness: the amended round-trip at the concrete locale input `"7"`. -/
theorem C4_format_clean_roundtrip_witness :
    numeroLimpio (.str "7") = some 7
    ∧ (numeroLimpio (.str (formatearNumero (.num 7))) = some ((roundHalfEvenQ 7 : ℤ) : ℚ)
      ∧ |((roundHalfEvenQ 7 : ℤ) : ℚ) - 7| ≤ 1 / 2
      ∧ ((7 : ℚ).den = 1 → ((roundHalfEvenQ 7 : ℤ) : ℚ) = 7)) :=
  ⟨by decide, C4_format_clean_roundtrip (.str "7") 7 (by decide)⟩

/-- C5: on numeric operands the remaining-units derivation renders
`max(0, total - delivered)` as a thousands-grouped number — the rendered
value parses back to a nonnegative integer — and an empty-sentinel
operand on either side yields `"--"`. -/
theorem C5_viviendas_restantes :
    (∀ t d : ℚ,
        calculoViviendasRestantes (.num t) (.num d)
          = .ok (formatearNumero (.num (max 0 (t - d))))
        ∧ numeroLimpio (.str (formatearNumero (.num (max 0 (t - d)))))
            = some ((roundHalfEvenQ (max 0 (t - d)) : ℤ) : ℚ)
        ∧ 0 ≤ ((roundHalfEvenQ (max 0 (t - d)) : ℤ) : ℚ))
    ∧ (∀ v w : Val, estaVacio v = true → calculoViviendasRestantes v w = .ok "--")
    ∧ (∀ v w : Val, estaVacio w = true → calculoViviendasRestantes v w = .ok "--") := by
  refine ⟨fun t d => ⟨?_, numeroLimpio_formatearNumero _, ?_⟩, ?_, ?_⟩
  · show (if estaVacio (.num t) || estaVacio (.num d) then Except.ok "--"
      else _) = _
    rw [show estaVacio (.num t) = false from rfl, show estaVacio (.num d) = false from rfl]
    simp only [Bool.or_self, Bool.false_eq_true, if_false]
    show Except.ok (formatearNumero (.num (qMax 0 (qSub t d)))) = _
    rw [qMax_eq, qSub_eq]
  · have h0 : (0 : ℚ) ≤ max 0 (t - d) := le_max_left 0 _
    have := roundHalfEvenQ_nonneg h0
    exact_mod_cast this
  · intro v w h
    unfold calculoViviendasRestantes
    rw [h]
    simp
  · intro v w h
    unfold calculoViviendasRestantes
    rw [h]
    simp

/-- C5, witness: concrete instances discharging each hypothesis. -/
theorem C5_viviendas_restantes_witness :
    calculoViviendasRestantes (.num 10) (.num 3)
      = .ok (formatearNumero (.num (max 0 ((10 : ℚ) - 3))))
    ∧ calculoViviendasRestantes (.str "--") (.num 1) = .ok "--"
    ∧ calculoViviendasRestantes (.num 1) (.str "") = .ok "--"
    ∧ calculoViviendasRestantes Val.nan (.num 1) = .ok "--" :=
  ⟨(C5_viviendas_restantes.1 10 3).1,
   C5_viviendas_restantes.2.1 _ _ (by decide),
   C5_viviendas_restantes.2.2 _ _ (by decide),
   C5_viviendas_restantes.2.1 _ _ (by decide)⟩

/-- C6: the remaining-progress derivation computes `100 - current` with
`current` rescaled by 100 when it lies in `[0, 1]`, clamps to `[0, 100]`,
and formats as a percentage; `45` and `0.45` both yield `"55%"`. -/
theorem C6_progreso_restante :
    (∀ p : ℚ,
        calculateProgresoRestante (.num p)
          = .ok (formatearPorcentaje (.num
              (max 0 (min 100 (100 - (if 0 ≤ p ∧ p ≤ 1 then p * 100 else p))))))
        ∧ 0 ≤ max 0 (min 100 (100 - (if 0 ≤ p ∧ p ≤ 1 then p * 100 else p)))
        ∧ max 0 (min 100 (100 - (if 0 ≤ p ∧ p ≤ 1 then p * 100 else p))) ≤ 100)
    ∧ calculateProgresoRestante (.num 45) = .ok "55%"
    ∧ calculateProgresoRestante (.num (mkRat 9 20)) = .ok "55%" := by
  refine ⟨fun p => ⟨?_, le_max_left 0 _, ?_⟩, by rfl, by rfl⟩
  · show (if estaVacio (.num p) then Except.ok "--" else _) = _
    rw [show estaVacio (.num p) = false from rfl]
    simp only [Bool.false_eq_true, if_false]
    show Except.ok (formatearPorcentaje (.num
      (qMax 0 (qMin 100 (qSub 100 (if 0 ≤ p ∧ p ≤ 1 then qMul p 100 else p)))))) = _
    rw [qMax_eq, qMin_eq, qSub_eq, qMul_eq]
  · exact max_le (by norm_num) (min_le_left _ _)

/-- C2: the remaining-units derivation's exception handler references the
undefined name `delivered_viviendas` (calculations.py line 154), so an
exception inside the `try` body (here: `float` on the unparseable operand
`"abc"`) escapes as a `NameError` instead of the documented `"--"`. -/
theorem C2_viviendas_handler_name_error :
    calculoViviendasRestantes (.str "abc") (.num 1) = .error .nameError := by
  rfl

/-- C3, counterexample to the claim as stated: the saldo derivations
convert the rate with plain `float`, not with the locale cleaner, so the
locale-formatted rate string `"1.234,56"` is unparseable there and both
derivations degrade to `"--"` instead of producing `"$ 1.234.560"`. -/
theorem C3_saldo_locale_rate_counterexample :
    calcularSaldoActualizado (.num 1000) (.str "1.234,56") = .ok "--"
    ∧ calcularSaldoObraActualizado (.num 1000) (.str "1.234,56") = .ok "--"
    ∧ ("--" : String) ≠ "$ 1.234.560" := by
  refine ⟨by rfl, by rfl, by decide⟩

/-- C3 (amended): the locale cleaning happens in the daily-rate fetcher,
which turns `"1.234,56"` into the number 1234.56; the derivation applied
to quantity 1000 and that cleaned rate renders `"$ 1.234.560"`; and for
every quantity a missing, empty-sentinel, non-positive or unparseable
rate yields `"--"`. -/
theorem C3_saldo_actualizado :
    limpiarValorUviDiario "1.234,56" = some (mkRat 123456 100)
    ∧ calcularSaldoActualizado (.num 1000) (.num (mkRat 123456 100)) = .ok "$ 1.234.560"
    ∧ calcularSaldoObraActualizado (.num 1000) (.num (mkRat 123456 100)) = .ok "$ 1.234.560"
    ∧ (∀ c : Val, calcularSaldoActualizado c Val.none = .ok "--")
    ∧ (∀ c v : Val, estaVacio v = true → calcularSaldoActualizado c v = .ok "--")
    ∧ (∀ (c : Val) (q : ℚ), q ≤ 0 → calcularSaldoActualizado c (.num q) = .ok "--")
    ∧ (∀ (c : Val) (s : String), pythonFloat s = Option.none →
        calcularSaldoActualizado c (.str s) = .ok "--") := by
  refine ⟨by rfl, by rfl, by rfl, ?_, ?_, ?_, ?_⟩
  · intro c
    unfold calcularSaldoActualizado
    simp
  · intro c v h
    unfold calcularSaldoActualizado
    rw [h]
    simp
  · intro c q hq
    unfold calcularSaldoActualizado
    split
    · rfl
    · cases hnl : numeroLimpio c with
      | none => rfl
      | some c' =>
        show (match pyFloatValor (.num q) with
          | Option.none => Except.ok "--"
          | some v => if v ≤ 0 then Except.ok "--"
                      else Except.ok (formatearMonedaSinDecimales (.num (qMul c' v)))) = _
        show (if q ≤ 0 then Except.ok "--"
          else Except.ok (formatearMonedaSinDecimales (.num (qMul c' q)))) = _
        rw [if_pos hq]
  · intro c s h
    unfold calcularSaldoActualizado
    split
    · rfl
    · cases hnl : numeroLimpio c with
      | none => rfl
      | some c' =>
        show (match pyFloatValor (.str s) with
          | Option.none => Except.ok "--"
          | some v => if v ≤ 0 then Except.ok "--"
                      else Except.ok (formatearMonedaSinDecimales (.num (qMul c' v)))) = _
        show (match pythonFloat s with
          | Option.none => Except.ok "--"
          | some v => if v ≤ 0 then Except.ok "--"
                      else Except.ok (formatearMonedaSinDecimales (.num (qMul c' v)))) = _
        rw [h]

/-- C3, witness: the amended statement's guarded cases at concrete
inputs. -/
theorem C3_saldo_actualizado_witness :
    calcularSaldoActualizado (.num 5) (.str "--") = .ok "--"
    ∧ calcularSaldoActualizado (.num 5) (.num 0) = .ok "--"
    ∧ calcularSaldoActualizado (.num 5) (.str "x") = .ok "--" :=
  ⟨C3_saldo_actualizado.2.2.2.2.1 _ _ (by decide),
   C3_saldo_actualizado.2.2.2.2.2.1 _ 0 le_rfl,
   C3_saldo_actualizado.2.2.2.2.2.2 _ "x" (by decide)⟩

/-- C9 (amended): the three numeric formatters never raise; on a textual
input they strip `.` then turn `,` into `.` before parsing, and on a
parse failure they return the stringified *cleaned* input (the code
rebinds `value` to the cleaned string before `float`), which coincides
with the original exactly when the input contains no separator
characters. -/
theorem C9_formatter_parse_fallback :
    (∀ s : String, estaVacio (.str s) = false → pythonFloat (cleanSeps s) = Option.none →
        formatearMoneda (.str s) = cleanSeps s
        ∧ formatearMonedaSinDecimales (.str s) = cleanSeps s
        ∧ formatearNumero (.str s) = cleanSeps s)
    ∧ (∀ s : String, '.' ∉ s.data → ',' ∉ s.data → cleanSeps s = s) := by
  constructor
  · intro s hv hp
    refine ⟨?_, ?_, ?_⟩
    · unfold formatearMoneda
      rw [hv]
      simp only [Bool.false_eq_true, if_false]
      rw [hp]
    · unfold formatearMonedaSinDecimales
      rw [hv]
      simp only [Bool.false_eq_true, if_false]
      rw [hp]
    · unfold formatearNumero
      rw [hv]
      simp only [Bool.false_eq_true, if_false]
      rw [hp]
  · intro s hdot hcomma
    unfold cleanSeps stripDots commasToDots
    have h1 : s.data.filter (fun c => c ≠ '.') = s.data :=
      List.filter_eq_self.mpr (fun c hc => by
        simp only [ne_eq, decide_eq_true_eq]
        exact fun hce => hdot (hce ▸ hc))
    rw [h1]
    have h2 : s.data.map (fun c => if c = ',' then '.' else c) = s.data :=
      map_eq_self_of_forall _ (fun c hc => by
        have : c ≠ ',' := fun hce => hcomma (hce ▸ hc)
        simp [this])
    rw [h2]

/-- C9, counterexample to the claim as stated: on parse failure the
fallback is the cleaned string, not the original — `"a,b"` comes back as
`"a.b"`. -/
theorem C9_fallback_counterexample :
    formatearMoneda (.str "a,b") = "a.b" ∧ ("a.b" : String) ≠ "a,b" := by
  refine ⟨by rfl, by decide⟩

/-- C9, witness: separator-free unparseable input falls back to itself. -/
theorem C9_formatter_parse_fallback_witness :
    (formatearMoneda (.str "abc") = cleanSeps "abc"
      ∧ formatearMonedaSinDecimales (.str "abc") = cleanSeps "abc"
      ∧ formatearNumero (.str "abc") = cleanSeps "abc")
    ∧ cleanSeps "abc" = "abc" :=
  ⟨C9_formatter_parse_fallback.1 "abc" (by decide) (by decide),
   C9_formatter_parse_fallback.2 "abc" (by decide) (by decide)⟩

/-- C1: with an empty payment list the context assembler raises — every
payment-dependent field is written `expr if pagos[0] else "--"` and the
conditional evaluates its test `pagos[0]` first, which is an
out-of-bounds index on the empty list (generator.py line 421).  The
`IndexError` is caught by the batch loop and the record is counted as an
error, so its emission does NOT succeed. -/
theorem C1_empty_pagos_raises_index_error (o : DateOracle) :
    buildPagoFields o [] = .error .indexError := rfl

/-- C10: for any payment built by the indexer, the context fields `Nro`,
`Nro_Operatoria`, `Contratista` and `Estado_Pago` read dict keys
(`certificado_dga`, `OP`, `ente`, `estado_pago`) that the indexer never
writes (it stores `nro`, `estado_calculado`, ...), so they are always
`"--"` regardless of the payment's data. -/
theorem C10_single_value_fields_always_empty (o : DateOracle) (i : Nat) (r : PagoRow)
    (rest : List Pago) :
    (buildPagoFields o (mkPago o i r :: rest)).map
        (fun ctx => (ctx.Nro, ctx.NroOperatoria, ctx.Contratista, ctx.EstadoPago))
      = .ok ("--", "--", "--", "--") := rfl

theorem appendAt_lookup_self (m : List (String × List Pago)) (k : String) (p : Pago) :
    (appendAt m k p).lookup k = some (((m.lookup k).getD []) ++ [p]) := by
  induction m with
  | nil => simp [appendAt, List.lookup]
  | cons kv rest ih =>
    obtain ⟨k', ps⟩ := kv
    by_cases hk : k' = k
    · subst hk
      simp [appendAt, List.lookup]
    · simp only [appendAt, if_neg hk, List.lookup]
      have : (k == k') = false := by
        simp only [beq_eq_false_iff_ne, ne_eq]
        exact fun h => hk h.symm
      rw [this]
      simp only [this] at *
      rw [ih]

theorem appendAt_lookup_ne (m : List (String × List Pago)) (k : String) (p : Pago)
    (k' : String) (h : k' ≠ k) : (appendAt m k p).lookup k' = m.lookup k' := by
  induction m with
  | nil =>
    simp only [appendAt, List.lookup]
    have : (k' == k) = false := by simpa using h
    rw [this]
  | cons kv rest ih =>
    obtain ⟨k0, ps⟩ := kv
    by_cases hk : k0 = k
    · subst hk
      simp only [appendAt, if_pos rfl, List.lookup]
      have hb : (k' == k0) = false := by simpa using h
      rw [hb]
    · simp only [appendAt, if_neg hk, List.lookup]
      split <;> [rfl; exact ih]

theorem fillGo_lookup (o : DateOracle) :
    ∀ (rows : List PagoRow) (i : Nat) (m : List (String × List Pago)) (k : String),
      (fillGo o i rows m).lookup k
        = match m.lookup k with
          | some ps => some (ps ++ pagosOf o i rows k)
          | Option.none =>
              if pagosOf o i rows k = [] then Option.none else some (pagosOf o i rows k) := by
  intro rows
  induction rows with
  | nil =>
    intro i m k
    show m.lookup k = _
    cases m.lookup k <;> simp [pagosOf]
  | cons r rs ih =>
    intro i m k
    show (fillGo o (i + 1) rs _).lookup k = _
    cases hkey : mkKey r.idObra with
    | none =>
      rw [ih (i + 1) m k]
      have hpre : pagosOf o i (r :: rs) k = pagosOf o (i + 1) rs k := by
        simp [pagosOf, hkey]
      rw [hpre]
    | some k0 =>
      by_cases hk : k0 = k
      · subst hk
        rw [ih (i + 1) (appendAt m k0 (mkPago o i r)) k0, appendAt_lookup_self]
        have hpre : pagosOf o i (r :: rs) k0 = mkPago o i r :: pagosOf o (i + 1) rs k0 := by
          simp [pagosOf, hkey]
        rw [hpre]
        cases m.lookup k0 with
        | none => simp
        | some ps => simp
      · rw [ih (i + 1) (appendAt m k0 (mkPago o i r)) k,
          appendAt_lookup_ne _ _ _ _ (fun h => hk h.symm)]
        have hpre : pagosOf o i (r :: rs) k = pagosOf o (i + 1) rs k := by
          simp [pagosOf, hkey, hk]
        rw [hpre]

theorem pagosOf_sortIdx_ge (o : DateOracle) :
    ∀ (rows : List PagoRow) (i : Nat) (k : String) (p : Pago),
      p ∈ pagosOf o i rows k → i ≤ p.sortIdx := by
  intro rows
  induction rows with
  | nil =>
    intro i k p hp
    simp [pagosOf] at hp
  | cons r rs ih =>
    intro i k p hp
    simp only [pagosOf, List.mem_append] at hp
    rcases hp with h | h
    · split at h
      · simp at h
        subst h
        exact le_rfl
      · simp at h
    · exact le_trans (Nat.le_succ i) (ih (i + 1) k p h)

theorem pagosOf_pairwise (o : DateOracle) :
    ∀ (rows : List PagoRow) (i : Nat) (k : String),
      List.Pairwise (fun a b : Pago => a.sortIdx < b.sortIdx) (pagosOf o i rows k) := by
  intro rows
  induction rows with
  | nil =>
    intro i k
    simp [pagosOf]
  | cons r rs ih =>
    intro i k
    show List.Pairwise _ ((if mkKey r.idObra = some k then [mkPago o i r] else [])
      ++ pagosOf o (i + 1) rs k)
    split
    · rw [List.singleton_append, List.pairwise_cons]
      refine ⟨fun p hp => ?_, ih (i + 1) k⟩
      have := pagosOf_sortIdx_ge o rs (i + 1) k p hp
      show (mkPago o i r).sortIdx < p.sortIdx
      show i < p.sortIdx
      omega
    · rw [List.nil_append]
      exact ih (i + 1) k

theorem insortByIdx_front (p : Pago) (l : List Pago)
    (h : ∀ x ∈ l, p.sortIdx ≤ x.sortIdx) : insortByIdx p l = p :: l := by
  cases l with
  | nil => rfl
  | cons q qs =>
    show (if p.sortIdx ≤ q.sortIdx then p :: q :: qs else q :: insortByIdx p qs) = _
    rw [if_pos (h q (List.mem_cons_self q qs))]

theorem sortByIdx_of_pairwise :
    ∀ l : List Pago, List.Pairwise (fun a b : Pago => a.sortIdx < b.sortIdx) l →
      sortByIdx l = l := by
  intro l
  induction l with
  | nil => intro _; rfl
  | cons p t ih =>
    intro hp
    rw [List.pairwise_cons] at hp
    show insortByIdx p (sortByIdx t) = p :: t
    rw [ih hp.2]
    exact insortByIdx_front p t (fun x hx => le_of_lt (hp.1 x hx))

theorem lookup_map_sort (m : List (String × List Pago)) (k : String) :
    (m.map (fun kv => (kv.1, sortByIdx kv.2))).lookup k = (m.lookup k).map sortByIdx := by
  induction m with
  | nil => rfl
  | cons kv rest ih =>
    obtain ⟨k0, ps⟩ := kv
    simp only [List.map_cons, List.lookup]
    split <;> [rfl; exact ih]

theorem buildPagosIndex_lookup (o : DateOracle) (rows : List PagoRow) (k : String) :
    (buildPagosIndex o rows).lookup k
      = if pagosOf o 0 rows k = [] then Option.none else some (pagosOf o 0 rows k) := by
  unfold buildPagosIndex
  rw [lookup_map_sort, fillGo_lookup o rows 0 [] k]
  show Option.map sortByIdx (if pagosOf o 0 rows k = [] then Option.none
    else some (pagosOf o 0 rows k)) = _
  split
  · rfl
  · show some (sortByIdx _) = _
    rw [sortByIdx_of_pairwise _ (pagosOf_pairwise o rows 0 k)]

/-- C7: the payment index groups rows by project id in source order —
whatever list the index holds for a key is exactly the pagos of that
key's rows in their original order (the final sort is by the stored row
index, so it never reorders by date); in particular, for three rows
keyed A, B, A the index at A holds row 1 then row 3. -/
theorem C7_pagos_index_source_order :
    (∀ (o : DateOracle) (rows : List PagoRow) (k : String) (l : List Pago),
        (buildPagosIndex o rows).lookup k = some l → l = pagosOf o 0 rows k)
    ∧ (∀ (o : DateOracle) (rA1 rB rA3 : PagoRow),
        mkKey rA1.idObra = some "A" → mkKey rB.idObra = some "B" →
        mkKey rA3.idObra = some "A" →
        (buildPagosIndex o [rA1, rB, rA3]).lookup "A"
          = some [mkPago o 0 rA1, mkPago o 2 rA3]) := by
  constructor
  · intro o rows k l h
    rw [buildPagosIndex_lookup] at h
    split at h
    · exact absurd h (by simp)
    · exact (Option.some.injEq _ _ ▸ h).symm
  · intro o rA1 rB rA3 h1 h2 h3
    rw [buildPagosIndex_lookup]
    have hp : pagosOf o 0 [rA1, rB, rA3] "A" = [mkPago o 0 rA1, mkPago o 2 rA3] := by
      simp [pagosOf, h1, h2, h3]
    rw [hp]
    simp

/-- Concrete date oracle for witnesses: no date ever parses. -/
def oracleTrivial : DateOracle where
  toDatetimeOk := fun _ => false
  fmtFecha := fun _ => "--"

/-- Concrete payment rows for the C7 witness: ids A, B, A. -/
def exRowA1 : PagoRow where
  idObra := .str "A"
  trata := .str "T1"
  certificadoDga := .num 7
  expediente := Val.none
  importeDevengado := .num 100
  fechaPago := Val.none

/-- Second witness row, keyed B. -/
def exRowB : PagoRow where
  idObra := .str "B"
  trata := Val.none
  certificadoDga := Val.none
  expediente := Val.none
  importeDevengado := Val.none
  fechaPago := Val.none

/-- Third witness row, keyed A again. -/
def exRowA3 : PagoRow where
  idObra := .str "A"
  trata := .str "T3"
  certificadoDga := .num 9
  expediente := Val.none
  importeDevengado := Val.none
  fechaPago := Val.none

/-- C7, witness: both components at the concrete three-row table. -/
theorem C7_pagos_index_source_order_witness :
    [mkPago oracleTrivial 0 exRowA1, mkPago oracleTrivial 2 exRowA3]
      = pagosOf oracleTrivial 0 [exRowA1, exRowB, exRowA3] "A"
    ∧ (buildPagosIndex oracleTrivial [exRowA1, exRowB, exRowA3]).lookup "A"
      = some [mkPago oracleTrivial 0 exRowA1, mkPago oracleTrivial 2 exRowA3] :=
  ⟨C7_pagos_index_source_order.1 oracleTrivial [exRowA1, exRowB, exRowA3] "A"
      [mkPago oracleTrivial 0 exRowA1, mkPago oracleTrivial 2 exRowA3] (by decide),
   C7_pagos_index_source_order.2 oracleTrivial exRowA1 exRowB exRowA3 (by decide) (by decide)
     (by decide)⟩

/-- C8: reconciliation is a left outer join anchored on the primary
table: with primary ids {A, B} and a secondary feed holding only A (the
non-key cells arbitrary), the reconciled set has exactly the two primary
rows in order, A's row gains the secondary cell, B's secondary-sourced
column is NaN-filled (NaN satisfies the empty-sentinel predicate), and
the colliding column name receives the source-tagged suffixes. -/
theorem C8_reconciliation_left_join (a b sv : Val) :
    (leftMerge ⟨["id_obra", "monto"], [[.str "A", a], [.str "B", b]]⟩
        ⟨["id_obra", "monto"], [[.str "A", sv]]⟩ "id_obra").rows
      = [[.str "A", a, sv], [.str "B", b, Val.nan]]
    ∧ (leftMerge ⟨["id_obra", "monto"], [[.str "A", a], [.str "B", b]]⟩
        ⟨["id_obra", "monto"], [[.str "A", sv]]⟩ "id_obra").rows.length = 2
    ∧ (leftMerge ⟨["id_obra", "monto"], [[.str "A", a], [.str "B", b]]⟩
        ⟨["id_obra", "monto"], [[.str "A", sv]]⟩ "id_obra").cols
      = ["id_obra", "monto_excel", "monto_sheets"]
    ∧ estaVacio Val.nan = true :=
  ⟨rfl, rfl, rfl, rfl⟩
